import Mathlib

/-!
# Verification of the Scraper PDF extraction pipeline

Shallow embedding of the core of `src/directPdfProcessor.ts` and
`src/utils/concurrency.ts`: the segmenter (`splitPdfIntoChunks`), the year
filtering policy (`extractYearFromFilename`, `normalizeYears`,
`shouldProcessPdf`), the pure response-interpretation core of `processChunk`,
the reconciliation loop and result assembly of `processPdfWithClaude`, and the
bounded-concurrency runner `runWithConcurrency`.

JavaScript numbers appearing in the modelled fragments are ordinary decimal
values and are modelled as rationals (`ℚ`); machine floating point plays no
role in any modelled computation.  Strings are modelled as Lean `String`s,
working on their character lists (JS `.slice`/indexing count UTF-16 units,
which coincide with characters for the basic-plane text handled here).
-/

namespace Scraper

/-! ## JavaScript string helpers -/

/-- Characters removed by JavaScript `String.prototype.trim` (the common
whitespace set: space, tab, LF, CR, VT, FF, NBSP, BOM; further exotic Unicode
space code points are not modelled). -/
def isJsSpace (c : Char) : Bool :=
  c == ' ' || c == '\t' || c == '\n' || c == '\r' ||
  c == Char.ofNat 11 || c == Char.ofNat 12 || c == Char.ofNat 0xa0 ||
  c == Char.ofNat 0xfeff

/-- Decidable contiguous-substring test on character lists (JS
`String.prototype.includes`). -/
def hasSubstring (pat : List Char) : List Char → Bool
  | [] => pat.isPrefixOf ([] : List Char)
  | c :: rest => pat.isPrefixOf (c :: rest) || hasSubstring pat rest

/-- JS `trim` on a character list: drop leading and trailing whitespace. -/
def jsTrimList (l : List Char) : List Char :=
  ((l.dropWhile isJsSpace).reverse.dropWhile isJsSpace).reverse

/-- JS `String.prototype.trim`. -/
def jsTrim (s : String) : String :=
  ⟨jsTrimList s.data⟩

/-! ## `runWithConcurrency` (src/utils/concurrency.ts)

The runner starts `min(concurrency, items.length)` copies of `runner()`; each
repeatedly claims the next index `i = idx++` and runs `worker(items[i], i)`.
The `catch` block rethrows (`throw err`), so a worker exception rejects that
runner's promise and hence the `Promise.all`, i.e. the whole
`runWithConcurrency` call.  Below the execution with `concurrency = 1` is
modelled (a single runner processes the indices strictly in order; the first
worker exception rejects the overall promise, which is modelled as
`Except.error`). -/

/-- The single runner of `runWithConcurrency` with `concurrency = 1`: claim
indices in order, stop with `Except.error` as soon as a worker throws. -/
def runnerLoop (worker : α → Nat → Except ε ρ) : List α → Nat → Except ε (List ρ)
  | [], _ => .ok []
  | a :: rest, i =>
    match worker a i with
    | .error e => .error e
    | .ok r => (runnerLoop worker rest (i + 1)).map (r :: ·)

/-- `runWithConcurrency(items, worker, 1)`: the promise either resolves with
the per-index results or rejects with the first worker exception. -/
def runWithConcurrency1 (items : List α) (worker : α → Nat → Except ε ρ) :
    Except ε (List ρ) :=
  runnerLoop worker items 0

/-! ## `splitPdfIntoChunks` (src/directPdfProcessor.ts, lines 1012–1038)

`for (let start = 0; start < totalPages; start += pagesPerChunk)` with
`end = Math.min(start + pagesPerChunk - 1, totalPages - 1)`, emitting
`{ fromPage: start + 1, toPage: end + 1 }`.  Only the `(fromPage, toPage)`
ranges are modelled; the copied page bytes are irrelevant to the claims.
The guard `0 < pagesPerChunk` reflects that the JS loop would not terminate
for a non-positive step (the parameter defaults to 10 and the claims assume
a chunk size of at least 1). -/

/-- The chunking loop from a given `start` page index (0-based). -/
def splitChunksFrom (totalPages pagesPerChunk start : Nat) : List (Nat × Nat) :=
  if _h : start < totalPages ∧ 0 < pagesPerChunk then
    (start + 1, min (start + pagesPerChunk - 1) (totalPages - 1) + 1) ::
      splitChunksFrom totalPages pagesPerChunk (start + pagesPerChunk)
  else
    []
termination_by totalPages - start
decreasing_by omega

/-- `splitPdfIntoChunks`: the ordered list of `(fromPage, toPage)` ranges
(1-based, inclusive) produced for a document with `totalPages` pages. -/
def splitPdfIntoChunks (totalPages pagesPerChunk : Nat) : List (Nat × Nat) :=
  splitChunksFrom totalPages pagesPerChunk 0

/-! ## `normalizeYears` (src/directPdfProcessor.ts, lines 934–947) -/

/-- The regex test `/^\d{2}$/.test(y)`: the string is exactly two ASCII
digits. -/
def isTwoDigitString (s : String) : Bool :=
  s.data.length == 2 && s.data.all (·.isDigit)

/-- One step of reading a decimal numeral: shift and add the digit value. -/
def digitStep (acc : Nat) (c : Char) : Nat := 10 * acc + (c.toNat - '0'.toNat)

/-- Decimal value of a digit string (most significant first); models JS
`Number`/`parseInt` on the all-digit strings captured by the year regexes. -/
def digitsToNat (l : List Char) : Nat := l.foldl digitStep 0

/-- The per-entry widening step of `normalizeYears`:
`if (/^\d{2}$/.test(y)) { const n = Number(y); return n <= 30 ? "20"+y : "19"+y; } return y;`
(JS `Number` on a two-digit digit string is its decimal value). -/
def convertTwoDigitYear (y : String) : String :=
  if isTwoDigitString y then
    if digitsToNat y.data ≤ 30 then "20" ++ y else "19" ++ y
  else y

/-- `normalizeYears`: `undefined` or empty input yields `[]`; otherwise every
entry is trimmed (`String(y).trim()`), falsy (empty) strings are dropped
(`filter(Boolean)`), and two-digit years are widened to four digits. -/
def normalizeYears (years : Option (List String)) : List String :=
  match years with
  | none => []
  | some ys =>
    if ys = [] then []
    else ((ys.map jsTrim).filter (· ≠ "")).map convertTwoDigitYear

/-! ## JSON values

`extractJsonFromClaudeText` hands `processChunk` a `JSON.parse` result, so
the dynamic values flowing through the response interpretation are exactly
JSON values: `null`, booleans, (finite decimal) numbers, strings, arrays and
objects — never `undefined` or `NaN`.  Missing-field access (`undefined`) is
modelled with `Option`. -/

inductive JsVal where
  | null
  | bool (b : Bool)
  | num (q : ℚ)
  | str (s : String)
  | arr (elems : List JsVal)
  | obj (fields : List (String × JsVal))

/-- JS truthiness of a JSON value. -/
def JsVal.truthy : JsVal → Bool
  | .null => false
  | .bool b => b
  | .num q => decide (q ≠ 0)
  | .str s => decide (s ≠ "")
  | .arr _ => true
  | .obj _ => true

/-- Property access `v.key`; `none` models JS `undefined` (missing key, or
access on a non-object). -/
def JsVal.get? : JsVal → String → Option JsVal
  | .obj fields, key => fields.lookup key
  | _, _ => none

/-- `a ?? b` where `a` is a possibly-`undefined` property. -/
def nullish : Option JsVal → JsVal → JsVal
  | some .null, b => b
  | some v, _ => v
  | none, b => b

/-- `a || b` where `a` is a possibly-`undefined` property: `a` when truthy,
else `b`. -/
def jsOr : Option JsVal → JsVal → JsVal
  | some v, b => if v.truthy then v else b
  | none, b => b

/-- `typeof v === "object"` for a non-`undefined` value (in JS this is also
true of `null`, which the source excludes separately by truthiness). -/
def isObjectLike : JsVal → Bool
  | .obj _ => true
  | .arr _ => true
  | _ => false

/-- `reason.toLowerCase().includes("year")`: defined for string receivers;
on a non-string receiver JS throws
`TypeError: skipReason.toLowerCase is not a function`, modelled as
`Except.error` (the surrounding `catch` in `processChunk` turns the throw
into a failed attempt). -/
def mentionsYear? : JsVal → Except String Bool
  | .str s => .ok (hasSubstring "year".data (s.data.map Char.toLower))
  | _ => .error "skipReason.toLowerCase is not a function"

/-! ## `processChunk` response interpretation (src/directPdfProcessor.ts, lines 1227–1321)

`processChunk` itself performs the network call and retries; its handling of
the parsed response is pure and is modelled here.  Of the converted
`TaggedQuestion` fields, the ones the claims concern — normalized page
number, extracted text, confidence — are modelled; the remaining fields
(id, examKey, year, options, answer, questionType, subject, topics,
difficulty, extraTags, timestamps, provenance) are record plumbing with no
bearing on any claim. -/

/-- `q.pageNumber ?? q.page ?? q.page_no ?? chunk.fromPage` (line 1266). -/
def pageNoCandidate (q : JsVal) (fromPage : ℕ) : JsVal :=
  nullish (q.get? "pageNumber")
    (nullish (q.get? "page")
      (nullish (q.get? "page_no") (.num fromPage)))

/-- Page normalization (lines 1269–1279): a numeric reported page inside
`[1, toPage - fromPage + 1]` is treated as unit-relative and remapped to
`fromPage + (p - 1)`; any other numeric page passes through unchanged; a
non-numeric candidate is kept as is. -/
def normalizedPageOf (q : JsVal) (fromPage toPage : ℕ) : JsVal :=
  match pageNoCandidate q fromPage with
  | .num p =>
    if 1 ≤ p ∧ p ≤ (toPage : ℚ) - (fromPage : ℚ) + 1 then
      .num ((fromPage : ℚ) + (p - 1))
    else
      .num p
  | v => v

/-- A JavaScript number value: finite (the finite doubles reached by the
modelled coercions are decimal values, represented exactly as rationals),
the two infinities, or `NaN`. -/
inductive JsNumber where
  | finite (q : ℚ)
  | posInf
  | negInf
  | nan
deriving DecidableEq

/-- Value of a hexadecimal digit character, if it is one. -/
def hexVal? (c : Char) : Option ℕ :=
  if c.isDigit then some (c.toNat - '0'.toNat)
  else if 'a' ≤ c ∧ c ≤ 'f' then some (c.toNat - 'a'.toNat + 10)
  else if 'A' ≤ c ∧ c ≤ 'F' then some (c.toNat - 'A'.toNat + 10)
  else none

/-- The digits of a `0x`/`0o`/`0b` numeral: at least one digit, each below
the base. -/
def parseRadix (base : ℕ) (l : List Char) : JsNumber :=
  if l ≠ [] ∧ l.all (fun c => (hexVal? c).any (· < base)) then
    .finite ((l.foldl (fun acc c => base * acc + (hexVal? c).getD 0) 0 : ℕ) : ℚ)
  else .nan

/-- The exponent suffix `[+|-] digits` following `e`/`E`. -/
def parseExponent (l : List Char) : Option ℤ :=
  match l with
  | '+' :: rest =>
    if rest ≠ [] ∧ rest.all (·.isDigit) then some ((digitsToNat rest : ℤ))
    else none
  | '-' :: rest =>
    if rest ≠ [] ∧ rest.all (·.isDigit) then some (-((digitsToNat rest : ℤ)))
    else none
  | rest =>
    if rest ≠ [] ∧ rest.all (·.isDigit) then some ((digitsToNat rest : ℤ))
    else none

/-- The unsigned part of a JS string numeral: `Infinity`, or a decimal with
optional fractional part and optional exponent (`digits`, `digits.digits`,
`.digits`, `digits.`, each optionally followed by `e`/`E` and a signed
exponent). -/
def parseUnsignedStrNumber (l : List Char) : JsNumber :=
  if l = "Infinity".data then .posInf
  else
    let intPart : List Char := l.takeWhile (·.isDigit)
    let r1 : List Char := l.dropWhile (·.isDigit)
    match r1 with
    | [] => if intPart = [] then .nan else .finite (digitsToNat intPart)
    | '.' :: r2 =>
      let frac : List Char := r2.takeWhile (·.isDigit)
      let r3 : List Char := r2.dropWhile (·.isDigit)
      if intPart = [] ∧ frac = [] then .nan
      else
        let mant : ℚ := (digitsToNat intPart : ℚ)
          + (digitsToNat frac : ℚ) / ((10 : ℚ) ^ frac.length)
        match r3 with
        | [] => .finite mant
        | e :: r4 =>
          if e = 'e' ∨ e = 'E' then
            match parseExponent r4 with
            | some k => .finite (mant * (10 : ℚ) ^ k)
            | none => .nan
          else .nan
    | e :: r4 =>
      if (e = 'e' ∨ e = 'E') ∧ intPart ≠ [] then
        match parseExponent r4 with
        | some k => .finite ((digitsToNat intPart : ℚ) * (10 : ℚ) ^ k)
        | none => .nan
      else .nan

/-- JS `Number` on a string: trim; empty → 0; else a signed decimal numeral
(fraction, exponent and `Infinity` included) or an unsigned `0x`/`0o`/`0b`
radix numeral. -/
def jsStringToNumber (s : String) : JsNumber :=
  match jsTrimList s.data with
  | [] => .finite 0
  | '+' :: rest => parseUnsignedStrNumber rest
  | '-' :: rest =>
    match parseUnsignedStrNumber rest with
    | .finite q => .finite (-q)
    | .posInf => .negInf
    | .negInf => .posInf
    | .nan => .nan
  | '0' :: 'x' :: rest => parseRadix 16 rest
  | '0' :: 'X' :: rest => parseRadix 16 rest
  | '0' :: 'o' :: rest => parseRadix 8 rest
  | '0' :: 'O' :: rest => parseRadix 8 rest
  | '0' :: 'b' :: rest => parseRadix 2 rest
  | '0' :: 'B' :: rest => parseRadix 2 rest
  | l => parseUnsignedStrNumber l

/-- JS `Number(v)` on a JSON value.  Arrays coerce through stringification,
`Number(arr) = Number(arr.join(","))`: `[]` joins to `""` (0); a singleton
joins to its element's string, so a number or string element round-trips, a
`null` element joins to `""` (0), a nested singleton array flattens, and a
boolean element renders as `"true"`/`"false"` which does not parse; two or
more elements always keep a `','` and never parse.  Plain objects stringify
to `"[object Object]"` (`NaN`). -/
def jsToNumber : JsVal → JsNumber
  | .null => .finite 0
  | .bool b => .finite (if b then 1 else 0)
  | .num q => .finite q
  | .str s => jsStringToNumber s
  | .arr [] => .finite 0
  | .arr [.bool _] => .nan
  | .arr [v] => jsToNumber v
  | .arr _ => .nan
  | .obj _ => .nan

/-- Confidence normalization (lines 1302–1307):
`typeof q.confidence === "number" ? q.confidence : q.confidence ? Number(q.confidence) : 0.8`. -/
def confidenceOf (q : JsVal) : JsNumber :=
  match q.get? "confidence" with
  | some (.num c) => .finite c
  | some v => if v.truthy then jsToNumber v else .finite (0.8 : ℚ)
  | none => .finite (0.8 : ℚ)

/-- `q.questionText || q.text || ""` (line 1288). -/
def questionTextOf (q : JsVal) : JsVal :=
  jsOr (q.get? "questionText") (jsOr (q.get? "text") (.str ""))

/-- The claim-relevant fields of a converted `TaggedQuestion`
(lines 1281–1316). -/
structure RawTagged where
  pageNo : JsVal
  text : JsVal
  confidence : JsNumber

/-- Conversion of a single raw item (lines 1264–1319), restricted to the
claim-relevant fields. -/
def convertRawItem (q : JsVal) (fromPage toPage : ℕ) : RawTagged :=
  { pageNo := normalizedPageOf q fromPage toPage
  , text := questionTextOf q
  , confidence := confidenceOf q }

/-- The `for (const k of Object.keys(parsed))` fallback (lines 1251–1256):
the first array-valued field, in key order. -/
def firstArrayField : List (String × JsVal) → List JsVal
  | [] => []
  | (_, .arr xs) :: _ => xs
  | _ :: rest => firstArrayField rest

/-- Locating the questions array (lines 1245–1257): a direct array, else the
`questions` field, else the `items` field, else the first array-valued field;
`questionsArray` stays `[]` when none exists (so the subsequent
`!Array.isArray` throw is unreachable). -/
def locateQuestionsArray (parsed : JsVal) : List JsVal :=
  match parsed with
  | .arr xs => xs
  | .obj fields =>
    match (JsVal.obj fields).get? "questions" with
    | some (.arr xs) => xs
    | _ =>
      match (JsVal.obj fields).get? "items" with
      | some (.arr xs) => xs
      | _ => firstArrayField fields
  | _ => []

/-- Outcome of interpreting one chunk response. -/
inductive RawChunkOutcome where
  /-- `{ success: true, skip: true, skipReason, skipScope, questions: [] }` -/
  | skip (skipReason skipScope : JsVal)
  /-- `{ success: true, questions }` -/
  | items (questions : List RawTagged)

/-- `parsed && typeof parsed === "object" && parsed.skip === true`
(line 1230). -/
def isSkipObject (parsed : JsVal) : Bool :=
  parsed.truthy && isObjectLike parsed &&
    (match parsed.get? "skip" with
     | some (.bool true) => true
     | _ => false)

/-- `parsed.reason || "LLM signaled skip (no reason)"` (line 1231). -/
def skipReasonOf (parsed : JsVal) : JsVal :=
  jsOr (parsed.get? "reason") (.str "LLM signaled skip (no reason)")

/-- `parsed.scope || (skipReason.toLowerCase().includes("year") ? "document" : "chunk")`
(line 1232).  The fallback — and with it the possible TypeError on a
non-string reason — is evaluated only when the `scope` field is absent or
falsy, exactly as `||` short-circuits. -/
def skipScopeOf? (parsed : JsVal) : Except String JsVal :=
  match parsed.get? "scope" with
  | some v =>
    if v.truthy then .ok v
    else
      (mentionsYear? (skipReasonOf parsed)).map
        (fun b => if b then .str "document" else .str "chunk")
  | none =>
    (mentionsYear? (skipReasonOf parsed)).map
      (fun b => if b then .str "document" else .str "chunk")

/-- The pure response interpretation of `processChunk` (lines 1230–1321):
recognize a skip object before any item extraction — resolving the skip
scope may throw, and the surrounding `catch` then records a failed attempt
(retried, ending as a `{ success: false, error }` outcome) — otherwise
locate the item array and convert each raw item. -/
def interpretChunkResponse (parsed : JsVal) (fromPage toPage : ℕ) :
    Except String RawChunkOutcome :=
  if isSkipObject parsed then
    match skipScopeOf? parsed with
    | .ok scope => .ok (.skip (skipReasonOf parsed) scope)
    | .error e => .error e
  else
    .ok (.items ((locateQuestionsArray parsed).map
      (convertRawItem · fromPage toPage)))

/-! ## Reconciliation (`processPdfWithClaude`, lines 1343–1419)

`TaggedQuestion` as consumed by deduplication: the dedup key reads `pageNo`
and `text`, which the TS declaration types `number` (a document-absolute
page, a natural) and `string`.  The remaining fields do not influence
reconciliation and are omitted. -/

structure TaggedQuestion where
  pageNo : ℕ
  text : String
deriving DecidableEq

/-- Dedup key (line 1398):
`${q.pageNo}::${(q.text || "").trim().slice(0, 120)}`. -/
def dedupKey (q : TaggedQuestion) : String :=
  Nat.repr q.pageNo ++ "::" ++ String.mk ((jsTrimList q.text.data).take 120)

/-- The dedup loop (lines 1394–1403): keep each question whose key has not
been seen, in order. -/
def dedupeQuestions (seen : List String) :
    List TaggedQuestion → List TaggedQuestion
  | [] => []
  | q :: rest =>
    if dedupKey q ∈ seen then dedupeQuestions seen rest
    else q :: dedupeQuestions (dedupKey q :: seen) rest

/-- The dedup key as the specification words it: the pair of the
document-absolute page and the first 120 characters of the trimmed text. -/
def specDedupKey (q : TaggedQuestion) : ℕ × String :=
  (q.pageNo, String.mk ((jsTrimList q.text.data).take 120))

/-- Reference deduplication following the specification's words: keep
exactly the first occurrence of each key, dropping every later question
with the same key. -/
def keepFirstByKey : List TaggedQuestion → List TaggedQuestion
  | [] => []
  | q :: rest =>
    q :: keepFirstByKey (rest.filter (fun r => specDedupKey r ≠ specDedupKey q))
termination_by l => l.length
decreasing_by
  simpa using Nat.lt_succ_of_le (List.length_filter_le _ rest)

/-- The three result shapes `processChunk` delivers to the reconciliation
loop (the skip fields hold the strings produced by the skip branch's `||`
defaults). -/
inductive ChunkOutcome where
  /-- `{ success: true, skip: true, skipReason, skipScope, questions: [] }` -/
  | skip (skipReason skipScope : String)
  /-- `{ success: true, questions }` -/
  | items (questions : List TaggedQuestion)
  /-- `{ success: false, error }` -/
  | failed (error : String)

/-- Scope resolution at line 1357:
`r.skipScope || (r.skipReason && r.skipReason.toLowerCase().includes("year") ? "document" : "chunk")`. -/
def resolveScope (skipScope skipReason : String) : String :=
  if skipScope ≠ "" then skipScope
  else if skipReason ≠ "" ∧ hasSubstring "year".data (skipReason.data.map Char.toLower) = true then
    "document"
  else "chunk"

/-- Accumulated state of the outcome loop: questions in unit order, error
strings, and the reason of a document-scope skip if one was hit. -/
structure ReconcileState where
  acc : List TaggedQuestion
  errs : List String
  docSkip : Option String
deriving DecidableEq

/-- The outcome loop (lines 1346–1380).  `outcomes` is the
`runWithConcurrency` results array (`none` models an `undefined` entry, the
`!r` guard); `ranges` are the chunks' `(fromPage, toPage)` pairs, used only
in error messages (in the program `|ranges| = |outcomes|`, so the `getD`
default is never read); `i` is the loop index.  A document-scope skip stops
the loop (`break`); a chunk-scope skip contributes nothing; `items` extends
the accumulator; `failed` records an error. -/
def reconcileLoop (ranges : List (ℕ × ℕ)) :
    ℕ → List (Option ChunkOutcome) → ReconcileState
  | _, [] => ⟨[], [], none⟩
  | i, none :: rest =>
    let s := reconcileLoop ranges (i + 1) rest
    { s with errs := ("Chunk " ++ Nat.repr (i + 1) ++ " failed: Chunk "
        ++ Nat.repr (i + 1) ++ " produced no result") :: s.errs }
  | i, some (.skip reason scope) :: rest =>
    if resolveScope scope reason = "document" then
      ⟨[], [],
        some (if reason ≠ "" then reason else "LLM signaled document-level skip")⟩
    else
      reconcileLoop ranges (i + 1) rest
  | i, some (.items qs) :: rest =>
    let s := reconcileLoop ranges (i + 1) rest
    { s with acc := qs ++ s.acc }
  | i, some (.failed e) :: rest =>
    let s := reconcileLoop ranges (i + 1) rest
    { s with errs := ("Chunk " ++ Nat.repr (i + 1) ++ " (pages "
        ++ Nat.repr (ranges.getD i (0, 0)).1 ++ "-"
        ++ Nat.repr (ranges.getD i (0, 0)).2 ++ ") failed: "
        ++ (if e ≠ "" then e else "Unknown chunk failure")) :: s.errs }

/-- An entry of the results array that triggers the document-level `break`
of the loop: a skip outcome whose resolved scope is `"document"`. -/
def isDocSkipOutcome : Option ChunkOutcome → Bool
  | some (.skip reason scope) => decide (resolveScope scope reason = "document")
  | _ => false

/-! ## `extractYearFromFilename` (lines 905–929)

`fileName.match(pattern)` returns the leftmost match; each of the four
patterns is modelled as a direct scan over the character list.  `\b` is the
JS word boundary: a transition between a word character `[A-Za-z0-9_]` and a
non-word character or the string edge. -/

def isWordChar (c : Char) : Bool := c.isAlpha || c.isDigit || c == '_'

/-- There is a word boundary between `prev` (`none` = string start) and a
word character. -/
def boundaryBefore (prev : Option Char) : Bool :=
  match prev with
  | none => true
  | some c => !isWordChar c

/-- There is a word boundary between a word character and what follows. -/
def boundaryAfter : List Char → Bool
  | [] => true
  | c :: _ => !isWordChar c

/-- Leftmost match of `/\b(20[0-9]{2})\b/`. -/
def findYear4 (prev : Option Char) : List Char → Option String
  | c1 :: c2 :: c3 :: c4 :: rest =>
    if boundaryBefore prev && c1 == '2' && c2 == '0' && c3.isDigit && c4.isDigit
        && boundaryAfter rest then
      some (String.mk [c1, c2, c3, c4])
    else
      findYear4 (some c1) (c2 :: c3 :: c4 :: rest)
  | _ => none

/-- Leftmost match of `/\b([0-9]{2})\b/`. -/
def findYear2 (prev : Option Char) : List Char → Option String
  | c1 :: c2 :: rest =>
    if boundaryBefore prev && c1.isDigit && c2.isDigit && boundaryAfter rest then
      some (String.mk [c1, c2])
    else
      findYear2 (some c1) (c2 :: rest)
  | _ => none

/-- Match `/year[_-]?([0-9]{2,4})/i` anchored at this position: the literal
`year` (case-insensitive), a greedily consumed optional separator, then a
greedy 2–4 digit capture.  (When the separator is consumed but fewer than two
digits follow, the regex engine's backtrack to the separator-less branch also
fails, since the separator is not a digit — so consuming greedily is exact.) -/
def matchYearWordAt : List Char → Option String
  | y :: e :: a :: r :: rest =>
    if y.toLower == 'y' && e.toLower == 'e' && a.toLower == 'a'
        && r.toLower == 'r' then
      let afterSep : List Char := match rest with
        | c :: rest2 => if c == '_' || c == '-' then rest2 else rest
        | [] => []
      let ds : List Char := (afterSep.takeWhile (·.isDigit)).take 4
      if 2 ≤ ds.length then some (String.mk ds) else none
    else none
  | _ => none

/-- Leftmost match of `/year[_-]?([0-9]{2,4})/i`. -/
def findYearWord : List Char → Option String
  | [] => none
  | c :: rest =>
    match matchYearWordAt (c :: rest) with
    | some y => some y
    | none => findYearWord rest

/-- Match `/([0-9]{4})[_-]?paper/i` anchored at this position (same greedy
separator argument as above: `p` is neither `_` nor `-`). -/
def matchPaperAt : List Char → Option String
  | c1 :: c2 :: c3 :: c4 :: rest =>
    if c1.isDigit && c2.isDigit && c3.isDigit && c4.isDigit then
      let afterSep : List Char := match rest with
        | c :: rest2 => if c == '_' || c == '-' then rest2 else rest
        | [] => []
      match afterSep with
      | p :: a :: p2 :: e :: r :: _ =>
        if p.toLower == 'p' && a.toLower == 'a' && p2.toLower == 'p'
            && e.toLower == 'e' && r.toLower == 'r' then
          some (String.mk [c1, c2, c3, c4])
        else none
      | _ => none
    else none
  | _ => none

/-- Leftmost match of `/([0-9]{4})[_-]?paper/i`. -/
def findPaperYear : List Char → Option String
  | [] => none
  | c :: rest =>
    match matchPaperAt (c :: rest) with
    | some y => some y
    | none => findPaperYear rest

/-- Lines 917–924: a two-character capture is widened (`parseInt` then
`≤ 30 → 20xx`, else `19xx`); other captures are returned as matched. -/
def adjustCapturedYear (y : String) : String :=
  if y.data.length = 2 then
    if digitsToNat y.data ≤ 30 then "20" ++ y else "19" ++ y
  else y

/-- `extractYearFromFilename`: try the four patterns in order and return the
first (adjusted) capture. -/
def extractYearFromFilename (fileName : String) : Option String :=
  match findYear4 none fileName.data with
  | some y => some (adjustCapturedYear y)
  | none =>
    match findYear2 none fileName.data with
    | some y => some (adjustCapturedYear y)
    | none =>
      match findYearWord fileName.data with
      | some y => some (adjustCapturedYear y)
      | none =>
        match findPaperYear fileName.data with
        | some y => some (adjustCapturedYear y)
        | none => none

/-! ## `shouldProcessPdf` (lines 952–1002) -/

/-- The `EnhancedExamContext` fields that drive filtering (the descriptive
prompt-only fields do not affect control flow and are omitted;
`strictYearFiltering: undefined` is falsy, i.e. `false`). -/
structure EnhancedExamContext where
  allowedYears : Option (List String)
  strictYearFiltering : Bool

/-- The result record of `shouldProcessPdf`. -/
structure FilterCheck where
  shouldProcess : Bool
  reason : Option String
  detectedYear : Option String
deriving DecidableEq

/-- `shouldProcessPdf`: the year pre-filter decision (the source's trailing
`"Unknown filtering condition"` branch is unreachable and has no
counterpart). -/
def shouldProcessPdf (fileName : String)
    (examContext : EnhancedExamContext) : FilterCheck :=
  if examContext.allowedYears.getD [] = [] then
    ⟨true, none, none⟩
  else
    let allowed := examContext.allowedYears.getD []
    match extractYearFromFilename fileName, examContext.strictYearFiltering with
    | none, false =>
      ⟨true, some "No year detected, strict filtering disabled", none⟩
    | none, true =>
      ⟨false, some "No year detected in filename, strict filtering enabled", none⟩
    | some detectedYear, _ =>
      if allowed.contains detectedYear then
        ⟨true,
         some ("Year " ++ detectedYear ++ " is in allowed years: "
           ++ String.intercalate ", " allowed),
         some detectedYear⟩
      else
        ⟨false,
         some ("Year " ++ detectedYear ++ " not in allowed years: "
           ++ String.intercalate ", " allowed),
         some detectedYear⟩

/-! ## `processPdfWithClaude` (lines 1071–1433) -/

/-- The claim-relevant fields of `DirectPdfResult` (`metadata.totalQuestions`
and `metadata.skippedReason` inlined; `filePath`, `processingTime`,
`metadata.examKey` and `metadata.year` are bookkeeping with no bearing on
the claims). -/
structure DirectPdfResult where
  success : Bool
  fileName : String
  questions : List TaggedQuestion
  totalQuestions : ℕ
  skippedReason : Option String
  errors : List String
deriving DecidableEq

/-- What the IO prefix of the `try` block produced: a thrown setup error
(file read or PDF parse failure), or the chunk ranges from
`splitPdfIntoChunks` together with the `runWithConcurrency` results array of
`processChunk` outcomes. -/
inductive PdfLoad where
  | failedSetup (message : String)
  | chunked (ranges : List (ℕ × ℕ)) (outcomes : List (Option ChunkOutcome))

/-- `processPdfWithClaude` with the external effects factored into `load`:
normalize the allowed years, run the filename pre-filter, reconcile the
chunk outcomes with the document-skip short-circuit, deduplicate, set the
success flag, and apply the strict-mode post-hoc skip. -/
def processPdfWithClaude (fileName : String)
    (examContextInput : EnhancedExamContext) (load : PdfLoad) :
    DirectPdfResult :=
  let examContext : EnhancedExamContext :=
    { examContextInput with
      allowedYears := some (normalizeYears examContextInput.allowedYears) }
  let base : DirectPdfResult :=
    { success := false, fileName := fileName, questions := [],
      totalQuestions := 0, skippedReason := none, errors := [] }
  let filterCheck := shouldProcessPdf fileName examContext
  if filterCheck.shouldProcess = false then
    { base with
      skippedReason := filterCheck.reason,
      errors := ["Skipped: " ++ filterCheck.reason.getD "undefined"] }
  else
    match load with
    | .failedSetup msg =>
      { base with
        errors := ["Failed to process " ++ fileName ++ ": " ++ msg] }
    | .chunked ranges outcomes =>
      if ranges = [] then
        { base with
          errors := ["Failed to process " ++ fileName
            ++ ": No chunks produced from PDF"] }
      else
        let st := reconcileLoop ranges 0 outcomes
        match st.docSkip with
        | some reason =>
          { base with
            skippedReason := some ("Skipped by LLM: " ++ reason),
            errors := st.errs ++ ["Skipped by LLM: " ++ reason] }
        | none =>
          let deduped := dedupeQuestions [] st.acc
          if examContext.strictYearFiltering ∧ deduped.length = 0 then
            { base with
              questions := deduped,
              totalQuestions := deduped.length,
              success := false,
              skippedReason :=
                some "LLM returned no questions and strictYearFiltering is enabled",
              errors := st.errs
                ++ ["LLM returned no questions and strictYearFiltering is enabled"] }
          else
            { base with
              questions := deduped,
              totalQuestions := deduped.length,
              success := decide (0 < deduped.length),
              errors := st.errs }

end Scraper

namespace Scraper

/-! ## Lemmas about the segmenter -/

theorem splitChunksFrom_join (P S : Nat) (hS : 0 < S) :
    ∀ n start, P - start ≤ n → start < P →
      ((splitChunksFrom P S start).map
          (fun c => List.range' c.1 (c.2 + 1 - c.1))).flatten
        = List.range' (start + 1) (P - start) := by
  intro n
  induction n with
  | zero => intro start h hlt; omega
  | succ n ih =>
    intro start h hlt
    rw [splitChunksFrom]
    rw [dif_pos ⟨hlt, hS⟩]
    by_cases hend : start + S < P
    · have hmin : min (start + S - 1) (P - 1) = start + S - 1 := by omega
      rw [hmin]
      have hrec := ih (start + S) (by omega) (by omega)
      simp only [List.map_cons, List.flatten_cons, hrec]
      have h1 : start + S - 1 + 1 + 1 - (start + 1) = S := by omega
      rw [h1]
      have h2 : List.range' (start + 1) S ++ List.range' (start + 1 + S) (P - (start + S))
          = List.range' (start + 1) (P - (start + S) + S) :=
        List.range'_append_1 (start + 1) S (P - (start + S))
      have h4 : start + S + 1 = start + 1 + S := by omega
      rw [h4, h2]
      congr 1
      omega
    · have hmin : min (start + S - 1) (P - 1) = P - 1 := by omega
      rw [hmin]
      have hstop : splitChunksFrom P S (start + S) = [] := by
        rw [splitChunksFrom]
        rw [dif_neg (by omega)]
      rw [hstop]
      simp only [List.map_cons, List.map_nil, List.flatten_cons, List.flatten_nil,
        List.append_nil]
      congr 1
      omega

theorem splitChunksFrom_sizes (P S : Nat) :
    ∀ n start, P - start ≤ n →
      ∀ c ∈ splitChunksFrom P S start, c.1 ≤ c.2 ∧ c.2 + 1 - c.1 ≤ S := by
  intro n
  induction n with
  | zero =>
    intro start hn c hc
    rw [splitChunksFrom] at hc
    by_cases hcond : start < P ∧ 0 < S
    · omega
    · rw [dif_neg hcond] at hc
      cases hc
  | succ n ih =>
    intro start hn c hc
    rw [splitChunksFrom] at hc
    by_cases hcond : start < P ∧ 0 < S
    · rw [dif_pos hcond] at hc
      cases hc with
      | head => exact ⟨by simp; omega, by simp; omega⟩
      | tail _ hmem => exact ih (start + S) (by omega) c hmem
    · rw [dif_neg hcond] at hc
      cases hc

theorem splitChunksFrom_dropLast (P S : Nat) :
    ∀ n start, P - start ≤ n →
      ∀ c ∈ (splitChunksFrom P S start).dropLast, c.2 + 1 - c.1 = S := by
  intro n
  induction n with
  | zero =>
    intro start hn c hc
    rw [splitChunksFrom] at hc
    by_cases hcond : start < P ∧ 0 < S
    · omega
    · rw [dif_neg hcond] at hc
      cases hc
  | succ n ih =>
    intro start hn c hc
    rw [splitChunksFrom] at hc
    by_cases hcond : start < P ∧ 0 < S
    · rw [dif_pos hcond] at hc
      rcases hrlist : splitChunksFrom P S (start + S) with _ | ⟨r, t⟩
      · rw [hrlist] at hc
        simp only [List.dropLast_single] at hc
        cases hc
      · have hrest : start + S < P := by
          by_contra hge
          rw [splitChunksFrom, dif_neg (by omega)] at hrlist
          cases hrlist
        rw [hrlist] at hc
        simp only [List.dropLast_cons₂] at hc
        cases hc with
        | head => simp; omega
        | tail _ hmem =>
          have := ih (start + S) (by omega) c
          rw [hrlist] at this
          exact this hmem
    · rw [dif_neg hcond] at hc
      cases hc

/-- C2: for every document with total page count `P ≥ 1` and every chunk size
`S ≥ 1`, `splitPdfIntoChunks` returns an ordered list of units whose
`(fromPage, toPage)` ranges partition `[1, P]` exactly — their page ranges
concatenate, in order, to `[1, 2, …, P]`, so there are no gaps and no
overlaps — each unit spans at most `S` pages (`toPage + 1 - fromPage ≤ S`),
and every unit except possibly the last spans exactly `S` pages. -/
theorem splitPdfIntoChunks_partitions (P S : Nat) (hP : 1 ≤ P) (hS : 1 ≤ S) :
    ((splitPdfIntoChunks P S).map
        (fun c => List.range' c.1 (c.2 + 1 - c.1))).flatten = List.range' 1 P
    ∧ (∀ c ∈ splitPdfIntoChunks P S, c.1 ≤ c.2 ∧ c.2 + 1 - c.1 ≤ S)
    ∧ (∀ c ∈ (splitPdfIntoChunks P S).dropLast, c.2 + 1 - c.1 = S) := by
  refine ⟨?_, ?_, ?_⟩
  · have := splitChunksFrom_join P S hS P 0 (by omega) (by omega)
    simpa [splitPdfIntoChunks] using this
  · exact fun c hc => splitChunksFrom_sizes P S P 0 (by omega) c hc
  · exact fun c hc => splitChunksFrom_dropLast P S P 0 (by omega) c hc

/-- Witness for C2: the theorem instantiated at a 5-page document with chunk
size 2 (units (1,2), (3,4), (5,5)). -/
theorem splitPdfIntoChunks_partitions_witness :
    ((splitPdfIntoChunks 5 2).map
        (fun c => List.range' c.1 (c.2 + 1 - c.1))).flatten = List.range' 1 5
    ∧ (∀ c ∈ splitPdfIntoChunks 5 2, c.1 ≤ c.2 ∧ c.2 + 1 - c.1 ≤ 2)
    ∧ (∀ c ∈ (splitPdfIntoChunks 5 2).dropLast, c.2 + 1 - c.1 = 2) :=
  splitPdfIntoChunks_partitions 5 2 (by norm_num) (by norm_num)

/-- C1 (evidence): `runWithConcurrency` does not isolate worker failures —
its `catch` block rethrows, so the rejected runner promise rejects the
`Promise.all` and the whole call.  With items `[10, 20]`, concurrency 1, and
a worker that throws on index 0 and succeeds elsewhere, the call rejects with
the worker's error instead of resolving with a two-entry results array: the
exception propagates to the caller and the non-throwing item's result is
lost. -/
theorem runWithConcurrency_error_escapes :
    runWithConcurrency1 [10, 20]
        (fun _ i => if i = 0 then (Except.error "boom" : Except String Nat)
          else Except.ok i)
      = Except.error "boom" := rfl

/-! ### Lemmas about trimming and `normalizeYears` -/

theorem dropWhile_self (p : α → Bool) (l : List α) :
    (l.dropWhile p).dropWhile p = l.dropWhile p := by
  cases h : l.dropWhile p with
  | nil => simp
  | cons a t =>
    have hpa : p a = false := by
      have h0 := List.head?_dropWhile_not p l
      rw [h] at h0
      simpa using h0
    simp [List.dropWhile_cons, hpa]

theorem dropWhile_eq_self_of_head (p : α → Bool) (l : List α)
    (h : ∀ hne : l ≠ [], p (l.head hne) = false) :
    l.dropWhile p = l := by
  cases l with
  | nil => simp
  | cons a t =>
    have := h (by simp)
    simp only [List.head_cons] at this
    simp [List.dropWhile_cons, this]

/-- Trailing trim: chop whitespace off the end. -/
theorem rtrim_prefix (p : α → Bool) (l : List α) :
    (l.reverse.dropWhile p).reverse <+: l := by
  have hsuf : l.reverse.dropWhile p <:+ l.reverse := List.dropWhile_suffix p
  have h2 := List.reverse_prefix.mpr hsuf
  simpa using h2

theorem ltrim_of_ltrimmed (p : α → Bool) (m : List α)
    (hm : m.dropWhile p = m) :
    ((m.reverse.dropWhile p).reverse).dropWhile p
      = (m.reverse.dropWhile p).reverse := by
  cases hr : (m.reverse.dropWhile p).reverse with
  | nil => simp
  | cons b s =>
    obtain ⟨t, ht⟩ := rtrim_prefix p m
    rw [hr] at ht
    have hpb : p b = false := by
      have h0 := List.head?_dropWhile_not p m
      rw [hm, ← ht] at h0
      simpa using h0
    simp [List.dropWhile_cons, hpb]

theorem jsTrimList_idem (l : List Char) :
    jsTrimList (jsTrimList l) = jsTrimList l := by
  unfold jsTrimList
  rw [ltrim_of_ltrimmed isJsSpace (l.dropWhile isJsSpace) (dropWhile_self _ l)]
  rw [List.reverse_reverse, dropWhile_self]

theorem jsTrimList_eq_self (l : List Char) (h : ∀ c ∈ l, isJsSpace c = false) :
    jsTrimList l = l := by
  unfold jsTrimList
  rw [dropWhile_eq_self_of_head _ _ (fun hne => h _ (List.head_mem hne))]
  rw [dropWhile_eq_self_of_head _ _
    (fun hne => h _ (List.mem_reverse.mp (List.head_mem hne)))]
  simp

theorem isJsSpace_eq_false_of_isDigit {c : Char} (h : c.isDigit = true) :
    isJsSpace c = false := by
  by_contra hne
  have hs : isJsSpace c = true := by
    revert hne
    cases isJsSpace c <;> simp
  simp only [isJsSpace, Bool.or_eq_true, beq_iff_eq] at hs
  rcases hs with ((((((h1 | h2) | h3) | h4) | h5) | h6) | h7) | h8 <;>
    subst_vars <;> exact absurd h (by decide)

theorem jsTrim_idem (s : String) : jsTrim (jsTrim s) = jsTrim s :=
  congrArg String.mk (jsTrimList_idem s.data)

theorem jsTrim_eq_self_of_digits (s : String)
    (h : ∀ c ∈ s.data, c.isDigit = true) : jsTrim s = s := by
  unfold jsTrim
  rw [jsTrimList_eq_self s.data
    (fun c hc => isJsSpace_eq_false_of_isDigit (h c hc))]

theorem ne_empty_of_data_length {s : String} (h : s.data.length ≠ 0) :
    s ≠ "" := by
  intro h0
  rw [h0] at h
  exact h rfl

theorem convertTwoDigitYear_of_prefixed (pre w : String)
    (hpredig : ∀ c ∈ pre.data, c.isDigit = true)
    (hprelen : pre.data.length = 2)
    (hdig : ∀ c ∈ w.data, c.isDigit = true)
    (hlen : w.data.length = 2) :
    jsTrim (pre ++ w) = pre ++ w ∧ (pre ++ w) ≠ ""
    ∧ convertTwoDigitYear (pre ++ w) = pre ++ w := by
  have hdata : (pre ++ w).data = pre.data ++ w.data := String.data_append pre w
  have hall : ∀ c ∈ (pre ++ w).data, c.isDigit = true := by
    rw [hdata]
    intro c hc
    rcases List.mem_append.mp hc with h | h
    · exact hpredig c h
    · exact hdig c h
  have hlen4 : (pre ++ w).data.length = 4 := by
    rw [hdata, List.length_append, hprelen, hlen]
  refine ⟨jsTrim_eq_self_of_digits _ hall, ne_empty_of_data_length (by omega), ?_⟩
  unfold convertTwoDigitYear
  rw [if_neg]
  simp only [isTwoDigitString, hlen4, Bool.and_eq_true, beq_iff_eq]
  omega

theorem convertTwoDigitYear_trimmed (w : String) (hw : jsTrim w = w)
    (hne : w ≠ "") :
    jsTrim (convertTwoDigitYear w) = convertTwoDigitYear w
    ∧ convertTwoDigitYear w ≠ ""
    ∧ convertTwoDigitYear (convertTwoDigitYear w) = convertTwoDigitYear w := by
  by_cases h2 : isTwoDigitString w = true
  · have hdig : ∀ c ∈ w.data, c.isDigit = true := by
      simp only [isTwoDigitString, Bool.and_eq_true, List.all_eq_true,
        decide_eq_true_eq] at h2
      exact fun c hc => h2.2 c hc
    have hlen : w.data.length = 2 := by
      simp only [isTwoDigitString, Bool.and_eq_true, beq_iff_eq] at h2
      exact h2.1
    unfold convertTwoDigitYear
    rw [if_pos h2]
    by_cases hn : digitsToNat w.data ≤ 30
    · rw [if_pos hn]
      exact convertTwoDigitYear_of_prefixed "20" w (by decide) (by decide)
        hdig hlen
    · rw [if_neg hn]
      exact convertTwoDigitYear_of_prefixed "19" w (by decide) (by decide)
        hdig hlen
  · have hcw : convertTwoDigitYear w = w := by
      unfold convertTwoDigitYear
      rw [if_neg h2]
    rw [hcw]
    exact ⟨hw, hne, hcw⟩

theorem mem_normalizeYears_fixed (ys : List String) (z : String)
    (hz : z ∈ normalizeYears (some ys)) :
    jsTrim z = z ∧ z ≠ "" ∧ convertTwoDigitYear z = z := by
  simp only [normalizeYears] at hz
  by_cases hys : ys = []
  · rw [if_pos hys] at hz
    cases hz
  · rw [if_neg hys] at hz
    obtain ⟨w, hwmem, hwz⟩ := List.mem_map.mp hz
    have hwfil := List.mem_filter.mp hwmem
    obtain ⟨y, _, hy⟩ := List.mem_map.mp hwfil.1
    have hwtrim : jsTrim w = w := by
      rw [← hy]
      exact jsTrim_idem y
    have hwne : w ≠ "" := by simpa using hwfil.2
    rw [← hwz]
    exact convertTwoDigitYear_trimmed w hwtrim hwne

theorem normalizeYears_idem (ys : List String) :
    normalizeYears (some (normalizeYears (some ys)))
      = normalizeYears (some ys) := by
  by_cases h0 : normalizeYears (some ys) = []
  · rw [h0]
    rfl
  · have hstep : normalizeYears (some (normalizeYears (some ys)))
        = (((normalizeYears (some ys)).map jsTrim).filter
            (· ≠ "")).map convertTwoDigitYear := by
      conv_lhs => rw [normalizeYears]
      rw [if_neg h0]
    rw [hstep]
    have hmap : (normalizeYears (some ys)).map jsTrim
        = normalizeYears (some ys) := by
      conv_rhs => rw [← List.map_id (normalizeYears (some ys))]
      exact List.map_congr_left
        (fun a ha => (mem_normalizeYears_fixed ys a ha).1)
    rw [hmap]
    have hfil : (normalizeYears (some ys)).filter (· ≠ "")
        = normalizeYears (some ys) := by
      rw [List.filter_eq_self]
      intro a ha
      simpa using (mem_normalizeYears_fixed ys a ha).2.1
    rw [hfil]
    conv_rhs => rw [← List.map_id (normalizeYears (some ys))]
    exact List.map_congr_left
      (fun a ha => (mem_normalizeYears_fixed ys a ha).2.2)

/-- C10: `normalizeYears` widens every 2-digit year string by the
`≤ 30 → 20xx, else 19xx` rule (so `"23" ↦ "2023"` and `"85" ↦ "1985"`),
leaves an already-4-digit year string unchanged, and is idempotent:
applying it to its own output returns that output. -/
theorem normalizeYears_spec :
    (∀ ys : List String,
      normalizeYears (some (normalizeYears (some ys)))
        = normalizeYears (some ys))
    ∧ (∀ y : String, y.data.length = 2 → (∀ c ∈ y.data, c.isDigit = true) →
        normalizeYears (some [y])
          = [if digitsToNat y.data ≤ 30 then "20" ++ y else "19" ++ y])
    ∧ normalizeYears (some ["23"]) = ["2023"]
    ∧ normalizeYears (some ["85"]) = ["1985"]
    ∧ (∀ y : String, (∀ c ∈ y.data, c.isDigit = true) → y.data.length = 4 →
        normalizeYears (some [y]) = [y]) := by
  refine ⟨normalizeYears_idem, ?_, by decide, by decide, ?_⟩
  · intro y hlen hdig
    have htrim : jsTrim y = y := jsTrim_eq_self_of_digits y hdig
    have hne : y ≠ "" := ne_empty_of_data_length (by omega)
    have h2d : isTwoDigitString y = true := by
      simp only [isTwoDigitString, Bool.and_eq_true, beq_iff_eq,
        List.all_eq_true, decide_eq_true_eq]
      exact ⟨hlen, fun c hc => hdig c hc⟩
    have hconv : convertTwoDigitYear y
        = if digitsToNat y.data ≤ 30 then "20" ++ y else "19" ++ y := by
      unfold convertTwoDigitYear
      rw [if_pos h2d]
    simp only [normalizeYears]
    rw [if_neg (by simp [hne])]
    simp [htrim, hne, hconv]
  · intro y hdig hlen
    have htrim : jsTrim y = y := jsTrim_eq_self_of_digits y hdig
    have hne : y ≠ "" := ne_empty_of_data_length (by omega)
    have hconv : convertTwoDigitYear y = y := by
      unfold convertTwoDigitYear
      rw [if_neg]
      simp only [isTwoDigitString, hlen, Bool.and_eq_true, beq_iff_eq]
      omega
    simp only [normalizeYears]
    rw [if_neg (by simp [hne])]
    simp [htrim, hne, hconv]

/-- Witness for C10: idempotence at a concrete mixed allowed-years list, the
widening rule applied at `"85"`, and the 4-digit passthrough at `"1985"`. -/
theorem normalizeYears_spec_witness :
    normalizeYears (some (normalizeYears (some ["23", " 85 ", "", "2024"])))
      = normalizeYears (some ["23", " 85 ", "", "2024"])
    ∧ normalizeYears (some ["85"])
        = [if digitsToNat "85".data ≤ 30 then "20" ++ "85" else "19" ++ "85"]
    ∧ normalizeYears (some ["1985"]) = ["1985"] :=
  ⟨normalizeYears_spec.1 ["23", " 85 ", "", "2024"],
   normalizeYears_spec.2.1 "85" (by decide) (by decide),
   normalizeYears_spec.2.2.2.2 "1985" (by decide) (by decide)⟩

/-! ### The pre-filter decision table (C3) -/

/-- C3: `shouldProcessPdf` implements the pre-filter decision table.  With no
configured `allowedYears` everything is processed; otherwise the year
detected by the ordered filename patterns decides: detected and allowed →
process; detected but not allowed → skip with the year-mismatch reason;
undetected → process exactly when strict filtering is disabled, with the
documented reasons.  The closed instances exercise the four ordered patterns
(`\b(20\d\d)\b`; standalone `\b(\d\d)\b` under the `≤ 30 → 20xx`, else
`19xx` rule; `year[_-]?(\d{2,4})`; `(\d{4})[_-]?paper`), including the
first-match precedence between them. -/
theorem shouldProcessPdf_decision_table :
    (∀ (fileName : String) (ctx : EnhancedExamContext),
      (ctx.allowedYears.getD [] = [] →
        shouldProcessPdf fileName ctx = ⟨true, none, none⟩)
      ∧ (∀ y, ctx.allowedYears.getD [] ≠ [] →
          extractYearFromFilename fileName = some y →
          y ∈ ctx.allowedYears.getD [] →
          shouldProcessPdf fileName ctx =
            ⟨true,
             some ("Year " ++ y ++ " is in allowed years: "
               ++ String.intercalate ", " (ctx.allowedYears.getD [])),
             some y⟩)
      ∧ (∀ y, ctx.allowedYears.getD [] ≠ [] →
          extractYearFromFilename fileName = some y →
          y ∉ ctx.allowedYears.getD [] →
          shouldProcessPdf fileName ctx =
            ⟨false,
             some ("Year " ++ y ++ " not in allowed years: "
               ++ String.intercalate ", " (ctx.allowedYears.getD [])),
             some y⟩)
      ∧ (ctx.allowedYears.getD [] ≠ [] →
          extractYearFromFilename fileName = none →
          ctx.strictYearFiltering = false →
          shouldProcessPdf fileName ctx =
            ⟨true, some "No year detected, strict filtering disabled", none⟩)
      ∧ (ctx.allowedYears.getD [] ≠ [] →
          extractYearFromFilename fileName = none →
          ctx.strictYearFiltering = true →
          shouldProcessPdf fileName ctx =
            ⟨false,
             some "No year detected in filename, strict filtering enabled",
             none⟩))
    ∧ extractYearFromFilename "exam-2019.pdf" = some "2019"
    ∧ extractYearFromFilename "ssc-85.pdf" = some "1985"
    ∧ extractYearFromFilename "ssc-23.pdf" = some "2023"
    ∧ extractYearFromFilename "year_1999.pdf" = some "1999"
    ∧ extractYearFromFilename "9876_paper.pdf" = some "9876"
    ∧ extractYearFromFilename "year_23_2019.pdf" = some "2023"
    ∧ extractYearFromFilename "mixed_paper.pdf" = none := by
  refine ⟨?_, by decide, by decide, by decide, by decide, by decide, by decide,
    by decide⟩
  intro fileName ctx
  refine ⟨?_, ?_, ?_, ?_, ?_⟩
  · intro h
    simp only [shouldProcessPdf, if_pos h]
  · intro y hne hy hmem
    simp only [shouldProcessPdf, if_neg hne, hy]
    rw [if_pos (List.elem_iff.mpr hmem)]
  · intro y hne hy hmem
    simp only [shouldProcessPdf, if_neg hne, hy]
    rw [if_neg (fun hc => hmem (List.elem_iff.mp hc))]
  · intro hne hy hs
    simp only [shouldProcessPdf, if_neg hne, hy, hs]
  · intro hne hy hs
    simp only [shouldProcessPdf, if_neg hne, hy, hs]

/-- Witness for C3: the year-mismatch row at a concrete filename and
context. -/
theorem shouldProcessPdf_decision_table_witness :
    shouldProcessPdf "exam-2019.pdf" ⟨some ["2023", "2024"], false⟩ =
      ⟨false, some "Year 2019 not in allowed years: 2023, 2024", some "2019"⟩ := by
  have h := (shouldProcessPdf_decision_table.1 "exam-2019.pdf"
    ⟨some ["2023", "2024"], false⟩).2.2.1 "2019" (by decide)
    shouldProcessPdf_decision_table.2.1 (by decide)
  simpa using h

/-! ### Page remapping (C7) -/

/-- C7: when the reported page number of a raw item is numeric, the
normalized page is `fromPage + (p - 1)` exactly when `p` lies inside the
unit-relative range `[1, toPage - fromPage + 1]`; any other numeric page is
passed through unchanged as already document-absolute. -/
theorem page_remapping (q : JsVal) (fromPage toPage : ℕ) (p : ℚ)
    (hp : pageNoCandidate q fromPage = .num p) :
    (1 ≤ p ∧ p ≤ (toPage : ℚ) - (fromPage : ℚ) + 1 →
      normalizedPageOf q fromPage toPage = .num ((fromPage : ℚ) + (p - 1)))
    ∧ (¬(1 ≤ p ∧ p ≤ (toPage : ℚ) - (fromPage : ℚ) + 1) →
      normalizedPageOf q fromPage toPage = .num p) := by
  unfold normalizedPageOf
  rw [hp]
  constructor
  · intro h
    show (if 1 ≤ p ∧ p ≤ (toPage : ℚ) - (fromPage : ℚ) + 1 then
        JsVal.num ((fromPage : ℚ) + (p - 1)) else JsVal.num p)
      = JsVal.num ((fromPage : ℚ) + (p - 1))
    rw [if_pos h]
  · intro h
    show (if 1 ≤ p ∧ p ≤ (toPage : ℚ) - (fromPage : ℚ) + 1 then
        JsVal.num ((fromPage : ℚ) + (p - 1)) else JsVal.num p)
      = JsVal.num p
    rw [if_neg h]

/-- Witness for C7: relative page 3 in a unit spanning 9–16 becomes 11;
page 20 (outside the relative range) passes through. -/
theorem page_remapping_witness :
    normalizedPageOf (JsVal.obj [("page", JsVal.num 3)]) 9 16 = JsVal.num 11
    ∧ normalizedPageOf (JsVal.obj [("page", JsVal.num 20)]) 9 16
        = JsVal.num 20 := by
  constructor
  · have h := (page_remapping (JsVal.obj [("page", JsVal.num 3)]) 9 16 3
      rfl).1 (by norm_num)
    have he : ((9 : ℕ) : ℚ) + (3 - 1) = 11 := by norm_num
    rw [he] at h
    exact h
  · exact (page_remapping (JsVal.obj [("page", JsVal.num 20)]) 9 16 20
      rfl).2 (by norm_num)

/-! ### Confidence normalization (C9) -/

/-- C9 is falsified by the code: a truthy non-numeric raw confidence is
coerced with `Number()` rather than defaulted.  Here the raw confidence is
the non-numeric `true`, and the normalized confidence is 1, not 0.8. -/
theorem confidence_default_counterexample :
    (JsVal.obj [("confidence", JsVal.bool true)]).get? "confidence"
      = some (JsVal.bool true)
    ∧ confidenceOf (JsVal.obj [("confidence", JsVal.bool true)])
        = JsNumber.finite 1
    ∧ JsNumber.finite 1 ≠ JsNumber.finite (0.8 : ℚ) :=
  ⟨rfl, by simp [confidenceOf, JsVal.get?, List.lookup, JsVal.truthy,
      jsToNumber],
   by
    intro h
    rw [JsNumber.finite.injEq] at h
    norm_num at h⟩

/-- C9 (amended): the normalized confidence equals the raw confidence when
it is a number — the `typeof` check keeps a numeric `0` as `0`; it defaults
to 0.8 exactly when the `confidence` field is absent or holds a falsy
non-number (`null`, `false`, `""`); a truthy non-numeric value is coerced
with JS `Number()` instead of defaulting. -/
theorem confidence_normalization (q : JsVal) :
    (∀ c : ℚ, q.get? "confidence" = some (.num c) →
      confidenceOf q = .finite c)
    ∧ (q.get? "confidence" = none → confidenceOf q = .finite (0.8 : ℚ))
    ∧ (∀ v, q.get? "confidence" = some v → (∀ c : ℚ, v ≠ .num c) →
        v.truthy = false → confidenceOf q = .finite (0.8 : ℚ))
    ∧ (∀ v, q.get? "confidence" = some v → (∀ c : ℚ, v ≠ .num c) →
        v.truthy = true → confidenceOf q = jsToNumber v) := by
  refine ⟨?_, ?_, ?_, ?_⟩
  · intro c h
    unfold confidenceOf
    rw [h]
  · intro h
    unfold confidenceOf
    rw [h]
  · intro v hv hnum htr
    unfold confidenceOf
    rw [hv]
    cases v with
    | num c => exact absurd rfl (hnum c)
    | null => simp [htr]
    | bool b => simp [htr]
    | str s => simp [htr]
    | arr xs => simp [htr]
    | obj fs => simp [htr]
  · intro v hv hnum htr
    unfold confidenceOf
    rw [hv]
    cases v with
    | num c => exact absurd rfl (hnum c)
    | null => simp [htr]
    | bool b => simp [htr]
    | str s => simp [htr]
    | arr xs => simp [htr]
    | obj fs => simp [htr]

/-- Witness for C9 (amended): a numeric raw confidence is kept — the
numeric `0` included — and an absent one defaults to 0.8. -/
theorem confidence_normalization_witness :
    confidenceOf (JsVal.obj [("confidence", JsVal.num (1/2))])
      = JsNumber.finite (1/2)
    ∧ confidenceOf (JsVal.obj [("confidence", JsVal.num 0)])
      = JsNumber.finite 0
    ∧ confidenceOf (JsVal.obj []) = JsNumber.finite (0.8 : ℚ) :=
  ⟨(confidence_normalization (JsVal.obj [("confidence", JsVal.num (1/2))])).1
      (1/2) rfl,
   (confidence_normalization (JsVal.obj [("confidence", JsVal.num 0)])).1
      0 rfl,
   (confidence_normalization (JsVal.obj [])).2.1 rfl⟩

/-! ### Skip classification and chunk-skip isolation (C5) -/

theorem reconcileLoop_index_invariant (ranges : List (ℕ × ℕ))
    (l : List (Option ChunkOutcome)) :
    ∀ i j, (reconcileLoop ranges i l).acc = (reconcileLoop ranges j l).acc
      ∧ (reconcileLoop ranges i l).docSkip
          = (reconcileLoop ranges j l).docSkip := by
  induction l with
  | nil => exact fun i j => ⟨rfl, rfl⟩
  | cons o rest ih =>
    intro i j
    match o with
    | none =>
      simp only [reconcileLoop]
      exact ih (i + 1) (j + 1)
    | some (.skip reason scope) =>
      simp only [reconcileLoop]
      split
      · exact ⟨rfl, rfl⟩
      · exact ih (i + 1) (j + 1)
    | some (.items qs) =>
      simp only [reconcileLoop]
      exact ⟨by rw [(ih (i + 1) (j + 1)).1], (ih (i + 1) (j + 1)).2⟩
    | some (.failed e) =>
      simp only [reconcileLoop]
      exact ih (i + 1) (j + 1)

theorem reconcileLoop_chunkSkip (ranges : List (ℕ × ℕ))
    (reason scope : String)
    (hscope : resolveScope scope reason ≠ "document") :
    ∀ (i : ℕ) (l1 l2 : List (Option ChunkOutcome)),
      (reconcileLoop ranges i
          (l1 ++ some (.skip reason scope) :: l2)).acc
        = (reconcileLoop ranges i (l1 ++ l2)).acc
      ∧ (reconcileLoop ranges i
          (l1 ++ some (.skip reason scope) :: l2)).docSkip
        = (reconcileLoop ranges i (l1 ++ l2)).docSkip := by
  intro i l1
  induction l1 generalizing i with
  | nil =>
    intro l2
    simp only [List.nil_append, reconcileLoop]
    rw [if_neg hscope]
    exact reconcileLoop_index_invariant ranges l2 (i + 1) i
  | cons o t ih =>
    intro l2
    match o with
    | none =>
      simp only [List.cons_append, reconcileLoop]
      exact ih (i + 1) l2
    | some (.skip r2 s2) =>
      simp only [List.cons_append, reconcileLoop]
      split
      · exact ⟨rfl, rfl⟩
      · exact ih (i + 1) l2
    | some (.items qs) =>
      simp only [List.cons_append, reconcileLoop]
      exact ⟨congrArg (qs ++ ·) (ih (i + 1) l2).1, (ih (i + 1) l2).2⟩
    | some (.failed e) =>
      simp only [List.cons_append, reconcileLoop]
      exact ih (i + 1) l2

/-- C5 is falsified by the code in one corner: for a skip object whose
`scope` field is absent (or falsy) and whose `reason` is a truthy
non-string, the scope default evaluates `skipReason.toLowerCase()` on a
non-string and throws a TypeError, so the attempt fails (and after the
retries the chunk ends as an error outcome) instead of returning a skip
outcome.  Concretely, `{skip: true, reason: 42}` is a skip object whose
interpretation is an error, not a skip. -/
theorem processChunk_skip_typeerror_counterexample :
    isSkipObject (JsVal.obj [("skip", JsVal.bool true),
      ("reason", JsVal.num 42)]) = true
    ∧ interpretChunkResponse (JsVal.obj [("skip", JsVal.bool true),
        ("reason", JsVal.num 42)]) 1 10
      = .error "skipReason.toLowerCase is not a function" :=
  ⟨rfl, rfl⟩

/-- C5 (amended): a parsed chunk response that is an object with
`skip = true` produces a skip outcome with no item extraction whenever
resolving the skip scope does not throw — which is the case in particular
whenever the reason is a string, as it is for every response of the
documented contract (the `||` default included); the scope is the response's
`scope` field whenever that field is present (truthy), and otherwise
defaults to `"document"` exactly when the (string) reason text mentions
"year" (else `"chunk"`); in the remaining corner — falsy or absent scope
together with a truthy non-string reason — the TypeError makes the chunk end
as an error outcome, not a skip.  In the reconciliation loop a chunk-scope
skip excludes only that unit: the accumulated questions and the
document-skip status are as if the unit were absent. -/
theorem processChunk_skip_classification :
    (∀ (parsed : JsVal) (fromPage toPage : ℕ) (scope : JsVal),
      isSkipObject parsed = true → skipScopeOf? parsed = .ok scope →
      interpretChunkResponse parsed fromPage toPage
        = .ok (.skip (skipReasonOf parsed) scope))
    ∧ (∀ (parsed v : JsVal), parsed.get? "scope" = some v → v.truthy = true →
        skipScopeOf? parsed = .ok v)
    ∧ (∀ (parsed : JsVal) (s : String),
        (parsed.get? "scope" = none
          ∨ ∃ v, parsed.get? "scope" = some v ∧ v.truthy = false) →
        skipReasonOf parsed = .str s →
        skipScopeOf? parsed
          = .ok (if hasSubstring "year".data (s.data.map Char.toLower)
              then JsVal.str "document" else JsVal.str "chunk"))
    ∧ (∀ (parsed : JsVal) (fromPage toPage : ℕ) (e : String),
        skipScopeOf? parsed = .error e → isSkipObject parsed = true →
        interpretChunkResponse parsed fromPage toPage = .error e)
    ∧ (∀ (ranges : List (ℕ × ℕ)) (reason scope : String) (i : ℕ)
        (l1 l2 : List (Option ChunkOutcome)),
        resolveScope scope reason ≠ "document" →
        (reconcileLoop ranges i
            (l1 ++ some (.skip reason scope) :: l2)).acc
          = (reconcileLoop ranges i (l1 ++ l2)).acc
        ∧ (reconcileLoop ranges i
            (l1 ++ some (.skip reason scope) :: l2)).docSkip
          = (reconcileLoop ranges i (l1 ++ l2)).docSkip) := by
  refine ⟨?_, ?_, ?_, ?_, ?_⟩
  · intro parsed fromPage toPage scope h hscope
    unfold interpretChunkResponse
    rw [if_pos h, hscope]
  · intro parsed v hv htr
    unfold skipScopeOf?
    rw [hv]
    simp [htr]
  · intro parsed s hv hreason
    unfold skipScopeOf?
    rcases hv with h | ⟨v, hv, htr⟩
    · rw [h, hreason]
      rfl
    · rw [hv, hreason]
      simp only [htr, Bool.false_eq_true, if_false]
      rfl
  · intro parsed fromPage toPage e hscope h
    unfold interpretChunkResponse
    rw [if_pos h, hscope]
  · intro ranges reason scope i l1 l2 h
    exact reconcileLoop_chunkSkip ranges reason scope h i l1 l2

/-- Witness for C5 (amended): a concrete skip object with an explicit
`"chunk"` scope is classified as such with no extraction; one whose string
reason mentions a year mismatch defaults to `"document"` scope; the
`{skip: true, reason: 42}` corner propagates its TypeError as an error
outcome; and a chunk-scope skip between two item units leaves the
accumulated questions and document-skip status those of the two item units
alone. -/
theorem processChunk_skip_classification_witness :
    interpretChunkResponse
        (JsVal.obj [("skip", JsVal.bool true),
          ("reason", JsVal.str "answer key only"),
          ("scope", JsVal.str "chunk")]) 1 10
      = .ok (.skip (JsVal.str "answer key only") (JsVal.str "chunk"))
    ∧ skipScopeOf? (JsVal.obj [("skip", JsVal.bool true),
          ("reason", JsVal.str "Year mismatch: found 2012")])
      = .ok (JsVal.str "document")
    ∧ interpretChunkResponse (JsVal.obj [("skip", JsVal.bool true),
          ("reason", JsVal.num 42)]) 1 10
      = .error "skipReason.toLowerCase is not a function"
    ∧ ((reconcileLoop [(1, 5), (6, 10), (11, 15)] 0
          ([some (.items [⟨2, "q1"⟩])]
            ++ some (.skip "answer key only" "chunk")
              :: [some (.items [⟨11, "q2"⟩])])).acc
        = (reconcileLoop [(1, 5), (6, 10), (11, 15)] 0
            ([some (.items [⟨2, "q1"⟩])] ++ [some (.items [⟨11, "q2"⟩])])).acc
      ∧ (reconcileLoop [(1, 5), (6, 10), (11, 15)] 0
          ([some (.items [⟨2, "q1"⟩])]
            ++ some (.skip "answer key only" "chunk")
              :: [some (.items [⟨11, "q2"⟩])])).docSkip
        = (reconcileLoop [(1, 5), (6, 10), (11, 15)] 0
            ([some (.items [⟨2, "q1"⟩])]
              ++ [some (.items [⟨11, "q2"⟩])])).docSkip) := by
  refine ⟨?_, ?_, ?_, ?_⟩
  · exact processChunk_skip_classification.1
      (JsVal.obj [("skip", JsVal.bool true),
        ("reason", JsVal.str "answer key only"),
        ("scope", JsVal.str "chunk")]) 1 10 (JsVal.str "chunk") (by decide)
      rfl
  · have h := processChunk_skip_classification.2.2.1
      (JsVal.obj [("skip", JsVal.bool true),
        ("reason", JsVal.str "Year mismatch: found 2012")])
      "Year mismatch: found 2012" (Or.inl rfl) rfl
    rw [h]
    rfl
  · exact processChunk_skip_classification.2.2.2.1
      (JsVal.obj [("skip", JsVal.bool true), ("reason", JsVal.num 42)])
      1 10 "skipReason.toLowerCase is not a function" rfl (by decide)
  · exact processChunk_skip_classification.2.2.2.2 [(1, 5), (6, 10), (11, 15)]
      "answer key only" "chunk" 0 [some (.items [⟨2, "q1"⟩])]
      [some (.items [⟨11, "q2"⟩])] (by decide)

/-! ### Deduplication (C8)

The string key `${pageNo}::${prefix}` encodes the pair
`(pageNo, prefix)` injectively, because the decimal rendering of `pageNo`
contains no `':'`: two keys agree iff the pairs agree, so the code's
string-keyed first-occurrence filter coincides with the specification's
pair-keyed one. -/

theorem digitChar_isDigit (d : Nat) (h : d < 10) :
    (Nat.digitChar d).isDigit = true := by
  interval_cases d <;> decide

theorem digitChar_val (d : Nat) (h : d < 10) :
    (Nat.digitChar d).toNat - '0'.toNat = d := by
  interval_cases d <;> decide

theorem toDigitsCore_digits (fuel : Nat) :
    ∀ (n : Nat) (ds : List Char), (∀ c ∈ ds, c.isDigit = true) →
      ∀ c ∈ Nat.toDigitsCore 10 fuel n ds, c.isDigit = true := by
  induction fuel with
  | zero =>
    intro n ds hds c hc
    simp only [Nat.toDigitsCore] at hc
    exact hds c hc
  | succ fuel ih =>
    intro n ds hds c hc
    simp only [Nat.toDigitsCore] at hc
    by_cases h0 : n / 10 = 0
    · rw [if_pos h0] at hc
      rcases List.mem_cons.mp hc with h | h
      · subst h
        exact digitChar_isDigit _ (Nat.mod_lt _ (by norm_num))
      · exact hds c h
    · rw [if_neg h0] at hc
      refine ih (n / 10) (Nat.digitChar (n % 10) :: ds) ?_ c hc
      intro c' hc'
      rcases List.mem_cons.mp hc' with h | h
      · subst h
        exact digitChar_isDigit _ (Nat.mod_lt _ (by norm_num))
      · exact hds c' h

theorem natRepr_digits (n : Nat) :
    ∀ c ∈ (Nat.repr n).data, c.isDigit = true := by
  intro c hc
  exact toDigitsCore_digits (n + 1) n [] (by simp) c hc

theorem natRepr_no_colon (n : Nat) : ':' ∉ (Nat.repr n).data := by
  intro hc
  have h := natRepr_digits n ':' hc
  exact absurd h (by decide)

theorem toDigitsCore_acc (fuel : Nat) :
    ∀ (n : Nat) (ds : List Char),
      Nat.toDigitsCore 10 fuel n ds = Nat.toDigitsCore 10 fuel n [] ++ ds := by
  induction fuel with
  | zero => intro n ds; simp [Nat.toDigitsCore]
  | succ fuel ih =>
    intro n ds
    simp only [Nat.toDigitsCore]
    by_cases h0 : n / 10 = 0
    · rw [if_pos h0, if_pos h0]
      rfl
    · rw [if_neg h0, if_neg h0, ih (n / 10) (Nat.digitChar (n % 10) :: ds),
        ih (n / 10) [Nat.digitChar (n % 10)]]
      simp

theorem toDigitsCore_val (fuel : Nat) :
    ∀ (n a : Nat), 0 < fuel → n < 10 ^ fuel →
      (Nat.toDigitsCore 10 fuel n []).foldl digitStep a
        = a * 10 ^ (Nat.toDigitsCore 10 fuel n []).length + n := by
  induction fuel with
  | zero => omega
  | succ fuel ih =>
    intro n a _ hn
    simp only [Nat.toDigitsCore]
    by_cases h0 : n / 10 = 0
    · rw [if_pos h0]
      have hn10 : n < 10 := by omega
      simp only [List.foldl_cons, List.foldl_nil, List.length_cons,
        List.length_nil, digitStep]
      rw [digitChar_val (n % 10) (Nat.mod_lt _ (by norm_num))]
      have : n % 10 = n := Nat.mod_eq_of_lt hn10
      rw [this]
      ring
    · rw [if_neg h0]
      have hfuel : 0 < fuel := by
        by_contra hh
        have : fuel = 0 := by omega
        subst this
        norm_num at hn
        omega
      have hdiv : n / 10 < 10 ^ fuel := by
        rw [Nat.div_lt_iff_lt_mul (by norm_num)]
        calc n < 10 ^ (fuel + 1) := hn
          _ = 10 ^ fuel * 10 := pow_succ 10 fuel
      rw [toDigitsCore_acc fuel (n / 10) [Nat.digitChar (n % 10)]]
      rw [List.foldl_append]
      rw [ih (n / 10) a hfuel hdiv]
      simp only [List.foldl_cons, List.foldl_nil, List.length_append,
        List.length_cons, List.length_nil, digitStep]
      rw [digitChar_val (n % 10) (Nat.mod_lt _ (by norm_num))]
      have hd : 10 * (n / 10) + n % 10 = n := Nat.div_add_mod n 10
      set L := (Nat.toDigitsCore 10 fuel (n / 10) []).length
      calc 10 * (a * 10 ^ L + n / 10) + n % 10
          = a * (10 ^ L * 10) + (10 * (n / 10) + n % 10) := by ring
        _ = a * 10 ^ (L + 1) + n := by rw [hd, pow_succ]

theorem natRepr_inj {n m : Nat} (h : Nat.repr n = Nat.repr m) : n = m := by
  have hdig : Nat.toDigits 10 n = Nat.toDigits 10 m := congrArg String.data h
  have hb : ∀ k : Nat, k < 10 ^ (k + 1) := by
    intro k
    calc k < 10 ^ k := Nat.lt_pow_self (by norm_num) k
      _ ≤ 10 ^ (k + 1) := Nat.pow_le_pow_right (by norm_num) (by omega)
  have hn := toDigitsCore_val (n + 1) n 0 (by omega) (hb n)
  have hm := toDigitsCore_val (m + 1) m 0 (by omega) (hb m)
  simp only [zero_mul, zero_add] at hn hm
  unfold Nat.toDigits at hdig
  rw [hdig] at hn
  rw [hn] at hm
  omega

theorem append_sep_inj :
    ∀ (a1 a2 t1 t2 : List Char), ':' ∉ a1 → ':' ∉ a2 →
      a1 ++ ':' :: ':' :: t1 = a2 ++ ':' :: ':' :: t2 →
      a1 = a2 ∧ t1 = t2 := by
  intro a1
  induction a1 with
  | nil =>
    intro a2 t1 t2 _ h2 heq
    cases a2 with
    | nil => simpa using heq
    | cons b bs =>
      simp only [List.nil_append, List.cons_append, List.cons.injEq] at heq
      exact absurd (heq.1 ▸ List.mem_cons_self b bs) h2
  | cons a as ih =>
    intro a2 t1 t2 h1 h2 heq
    cases a2 with
    | nil =>
      simp only [List.nil_append, List.cons_append, List.cons.injEq] at heq
      exact absurd (heq.1 ▸ List.mem_cons_self a as) h1
    | cons b bs =>
      simp only [List.cons_append, List.cons.injEq] at heq
      have hrec := ih bs t1 t2 (fun hmem => h1 (List.mem_cons_of_mem a hmem))
        (fun hmem => h2 (List.mem_cons_of_mem b hmem)) heq.2
      exact ⟨by rw [heq.1, hrec.1], hrec.2⟩

theorem dedupKey_eq_iff (q r : TaggedQuestion) :
    dedupKey q = dedupKey r ↔ specDedupKey q = specDedupKey r := by
  constructor
  · intro h
    have hd := congrArg String.data h
    simp only [dedupKey, String.data_append] at hd
    have hd2 : (Nat.repr q.pageNo).data
          ++ ':' :: ':' :: (jsTrimList q.text.data).take 120
        = (Nat.repr r.pageNo).data
          ++ ':' :: ':' :: (jsTrimList r.text.data).take 120 := by
      simpa using hd
    have hsep := append_sep_inj (Nat.repr q.pageNo).data
      (Nat.repr r.pageNo).data ((jsTrimList q.text.data).take 120)
      ((jsTrimList r.text.data).take 120) (natRepr_no_colon _)
      (natRepr_no_colon _) hd2
    have hpage : q.pageNo = r.pageNo :=
      natRepr_inj (String.ext hsep.1)
    have htext : String.mk ((jsTrimList q.text.data).take 120)
        = String.mk ((jsTrimList r.text.data).take 120) :=
      congrArg String.mk hsep.2
    simp only [specDedupKey, hpage, htext]
  · intro h
    simp only [specDedupKey, Prod.mk.injEq] at h
    simp only [dedupKey, h.1, h.2]

theorem dedupeQuestions_eq_keepFirst :
    ∀ (qs : List TaggedQuestion) (seen : List String),
      dedupeQuestions seen qs
        = keepFirstByKey (qs.filter (fun q => decide (dedupKey q ∉ seen))) := by
  intro qs
  induction qs with
  | nil =>
    intro seen
    simp [dedupeQuestions, List.filter_nil, keepFirstByKey]
  | cons q rest ih =>
    intro seen
    by_cases hk : dedupKey q ∈ seen
    · rw [show dedupeQuestions seen (q :: rest) = dedupeQuestions seen rest by
        simp [dedupeQuestions, hk]]
      rw [ih seen]
      congr 1
      simp [List.filter_cons, hk]
    · rw [show dedupeQuestions seen (q :: rest)
          = q :: dedupeQuestions (dedupKey q :: seen) rest by
        simp [dedupeQuestions, hk]]
      rw [ih (dedupKey q :: seen)]
      have hfil : rest.filter (fun r => decide (dedupKey r ∉ dedupKey q :: seen))
          = (rest.filter (fun r => decide (dedupKey r ∉ seen))).filter
              (fun r => decide (specDedupKey r ≠ specDedupKey q)) := by
        rw [List.filter_filter]
        apply List.filter_congr
        intro r _
        have hiff := dedupKey_eq_iff r q
        by_cases h1 : dedupKey r ∈ seen <;>
          by_cases h2 : specDedupKey r = specDedupKey q <;>
          simp [List.mem_cons, h1, h2, hiff]
      have hconsfil : List.filter (fun r => decide (dedupKey r ∉ seen)) (q :: rest)
          = q :: rest.filter (fun r => decide (dedupKey r ∉ seen)) := by
        simp [List.filter_cons, hk]
      rw [hconsfil, keepFirstByKey, hfil]

theorem dedupeQuestions_sublist :
    ∀ (qs : List TaggedQuestion) (seen : List String),
      (dedupeQuestions seen qs).Sublist qs := by
  intro qs
  induction qs with
  | nil => intro seen; simp [dedupeQuestions]
  | cons q rest ih =>
    intro seen
    by_cases hk : dedupKey q ∈ seen
    · rw [show dedupeQuestions seen (q :: rest) = dedupeQuestions seen rest by
        simp [dedupeQuestions, hk]]
      exact (ih seen).cons q
    · rw [show dedupeQuestions seen (q :: rest)
          = q :: dedupeQuestions (dedupKey q :: seen) rest by
        simp [dedupeQuestions, hk]]
      exact (ih (dedupKey q :: seen)).cons₂ q

/-- C8: deduplication over the concatenated, unit-ordered question list keeps
exactly the first occurrence of each `(pageNo, first 120 characters of
trimmed text)` key: it coincides with the reference `keepFirstByKey` (which
keeps each question and drops every later question with an equal key), and
its output is a sublist of the input, so questions with distinct keys — e.g.
same page, materially different text — all survive with their relative order
preserved. -/
theorem dedupe_keeps_first_occurrence (qs : List TaggedQuestion) :
    dedupeQuestions [] qs = keepFirstByKey qs
    ∧ (dedupeQuestions [] qs).Sublist qs := by
  constructor
  · rw [dedupeQuestions_eq_keepFirst qs []]
    congr 1
    simp
  · exact dedupeQuestions_sublist qs []

/-! ### Document-skip short-circuit (C4) and the skippedReason invariant (C6) -/

theorem reconcileLoop_docSkip_break (ranges : List (ℕ × ℕ))
    (reason scope : String)
    (hdoc : resolveScope scope reason = "document") :
    ∀ (i : ℕ) (l1 l2 : List (Option ChunkOutcome)),
      (∀ o ∈ l1, isDocSkipOutcome o = false) →
      reconcileLoop ranges i (l1 ++ some (.skip reason scope) :: l2)
        = reconcileLoop ranges i (l1 ++ [some (.skip reason scope)])
      ∧ (reconcileLoop ranges i
          (l1 ++ some (.skip reason scope) :: l2)).docSkip
        = some (if reason ≠ "" then reason
            else "LLM signaled document-level skip") := by
  intro i l1
  induction l1 generalizing i with
  | nil =>
    intro l2 _
    constructor
    · simp only [List.nil_append, reconcileLoop]
      rw [if_pos hdoc, if_pos hdoc]
    · simp only [List.nil_append, reconcileLoop]
      rw [if_pos hdoc]
  | cons o t ih =>
    intro l2 hprev
    have hoprev : isDocSkipOutcome o = false := hprev o (List.mem_cons_self o t)
    have hrest : ∀ o' ∈ t, isDocSkipOutcome o' = false :=
      fun o' h => hprev o' (List.mem_cons_of_mem o h)
    have h := ih (i + 1) l2 hrest
    match o with
    | none =>
      constructor
      · simp only [List.cons_append, reconcileLoop, List.append_eq, h.1]
      · simp only [List.cons_append, reconcileLoop, List.append_eq]
        exact h.2
    | some (.skip r2 s2) =>
      have hns : resolveScope s2 r2 ≠ "document" := by
        simpa [isDocSkipOutcome] using hoprev
      constructor
      · simp only [List.cons_append, reconcileLoop, List.append_eq]
        rw [if_neg hns, if_neg hns]
        exact h.1
      · simp only [List.cons_append, reconcileLoop, List.append_eq]
        rw [if_neg hns]
        exact h.2
    | some (.items qs) =>
      constructor
      · simp only [List.cons_append, reconcileLoop, List.append_eq, h.1]
      · simp only [List.cons_append, reconcileLoop, List.append_eq]
        exact h.2
    | some (.failed e) =>
      constructor
      · simp only [List.cons_append, reconcileLoop, List.append_eq, h.1]
      · simp only [List.cons_append, reconcileLoop, List.append_eq]
        exact h.2

/-- C4: when some chunk outcome is a document-scope skip and the pre-filter
let the file through, `processPdfWithClaude` short-circuits: the result
carries no questions, `success = false`, and the LLM skip reason — and it
equals the run truncated at the first document-scope skip, so the items any
earlier or later chunks produced are discarded. -/
theorem processPdf_document_skip_short_circuit
    (fileName : String) (ctx : EnhancedExamContext)
    (ranges : List (ℕ × ℕ)) (reason scope : String)
    (l1 l2 : List (Option ChunkOutcome))
    (hpass : (shouldProcessPdf fileName
      { ctx with allowedYears := some (normalizeYears ctx.allowedYears) }).shouldProcess
        = true)
    (hranges : ranges ≠ [])
    (hdoc : resolveScope scope reason = "document")
    (hprev : ∀ o ∈ l1, isDocSkipOutcome o = false) :
    (processPdfWithClaude fileName ctx
        (.chunked ranges (l1 ++ some (.skip reason scope) :: l2))).questions
      = []
    ∧ (processPdfWithClaude fileName ctx
        (.chunked ranges (l1 ++ some (.skip reason scope) :: l2))).success
      = false
    ∧ (processPdfWithClaude fileName ctx
        (.chunked ranges (l1 ++ some (.skip reason scope) :: l2))).skippedReason
      = some ("Skipped by LLM: "
          ++ (if reason ≠ "" then reason
              else "LLM signaled document-level skip"))
    ∧ processPdfWithClaude fileName ctx
        (.chunked ranges (l1 ++ some (.skip reason scope) :: l2))
      = processPdfWithClaude fileName ctx
        (.chunked ranges (l1 ++ [some (.skip reason scope)])) := by
  have hbreak := reconcileLoop_docSkip_break ranges reason scope hdoc 0 l1 l2
    hprev
  have hcond : ¬((shouldProcessPdf fileName
      { ctx with allowedYears := some (normalizeYears ctx.allowedYears) }).shouldProcess
        = false) := by
    rw [hpass]
    simp
  refine ⟨?_, ?_, ?_, ?_⟩ <;>
    simp only [processPdfWithClaude, if_neg hcond, if_neg hranges,
      hbreak.1, hbreak.2]
  all_goals rw [show (reconcileLoop ranges 0
      (l1 ++ [some (ChunkOutcome.skip reason scope)])).docSkip
      = some (if reason ≠ "" then reason
          else "LLM signaled document-level skip") by
    rw [← hbreak.1]
    exact hbreak.2]

/-- C6: every `DirectPdfResult` produced by `processPdfWithClaude` — whether
skipped by the pre-filter, by a model-declared document skip, post hoc under
strict filtering, failed, or successful — satisfies: if
`metadata.skippedReason` is set, the question list is empty and `success` is
`false`. -/
theorem skippedReason_invariant (fileName : String)
    (ctx : EnhancedExamContext) (load : PdfLoad)
    (h : (processPdfWithClaude fileName ctx load).skippedReason.isSome
      = true) :
    (processPdfWithClaude fileName ctx load).questions = []
    ∧ (processPdfWithClaude fileName ctx load).success = false := by
  by_cases hf : (shouldProcessPdf fileName
      { ctx with allowedYears := some (normalizeYears ctx.allowedYears) }).shouldProcess
        = false
  · constructor <;> simp [processPdfWithClaude, hf]
  · cases load with
    | failedSetup msg =>
      exfalso
      simp [processPdfWithClaude, hf] at h
    | chunked ranges outcomes =>
      by_cases hr : ranges = []
      · exfalso
        simp [processPdfWithClaude, hf, hr] at h
      · cases hds : (reconcileLoop ranges 0 outcomes).docSkip with
        | some reason =>
          constructor <;> simp [processPdfWithClaude, hf, hr, hds]
        | none =>
          by_cases hstrict : ctx.strictYearFiltering = true
            ∧ dedupeQuestions [] (reconcileLoop ranges 0 outcomes).acc = []
          · constructor
            · simp only [processPdfWithClaude, hf, hr, hds, hstrict.1,
                hstrict.2]
              split <;> rfl
            · simp only [processPdfWithClaude, hf, hr, hds, hstrict.1,
                hstrict.2]
              split <;> rfl
          · exfalso
            simp [processPdfWithClaude, hf, hr, hds, hstrict] at h

/-- Witness for C4: a document-scope skip in chunk 2 of 3 discards the items
of chunks 1 and 3 and skips the document with the LLM's reason. -/
theorem processPdf_document_skip_short_circuit_witness :
    (processPdfWithClaude "a.pdf" ⟨none, false⟩
        (.chunked [(1, 10), (11, 20), (21, 30)]
          ([some (.items [⟨1, "q1"⟩])]
            ++ some (.skip "wrong year" "document")
              :: [some (.items [⟨21, "q2"⟩])]))).questions = []
    ∧ (processPdfWithClaude "a.pdf" ⟨none, false⟩
        (.chunked [(1, 10), (11, 20), (21, 30)]
          ([some (.items [⟨1, "q1"⟩])]
            ++ some (.skip "wrong year" "document")
              :: [some (.items [⟨21, "q2"⟩])]))).success = false
    ∧ (processPdfWithClaude "a.pdf" ⟨none, false⟩
        (.chunked [(1, 10), (11, 20), (21, 30)]
          ([some (.items [⟨1, "q1"⟩])]
            ++ some (.skip "wrong year" "document")
              :: [some (.items [⟨21, "q2"⟩])]))).skippedReason
        = some "Skipped by LLM: wrong year"
    ∧ processPdfWithClaude "a.pdf" ⟨none, false⟩
        (.chunked [(1, 10), (11, 20), (21, 30)]
          ([some (.items [⟨1, "q1"⟩])]
            ++ some (.skip "wrong year" "document")
              :: [some (.items [⟨21, "q2"⟩])]))
      = processPdfWithClaude "a.pdf" ⟨none, false⟩
        (.chunked [(1, 10), (11, 20), (21, 30)]
          ([some (.items [⟨1, "q1"⟩])]
            ++ [some (.skip "wrong year" "document")])) := by
  have h := processPdf_document_skip_short_circuit "a.pdf" ⟨none, false⟩
    [(1, 10), (11, 20), (21, 30)] "wrong year" "document"
    [some (.items [⟨1, "q1"⟩])] [some (.items [⟨21, "q2"⟩])]
    (by decide) (by decide) (by decide) (by decide)
  refine ⟨h.1, h.2.1, ?_, h.2.2.2⟩
  rw [h.2.2.1]
  decide

/-- Witness for C6: a pre-filter year-mismatch skip has a set
`skippedReason`, an empty question list, and `success = false`. -/
theorem skippedReason_invariant_witness :
    (processPdfWithClaude "test-2019.pdf" ⟨some ["2023"], false⟩
        (.failedSetup "io")).skippedReason.isSome = true
    ∧ (processPdfWithClaude "test-2019.pdf" ⟨some ["2023"], false⟩
        (.failedSetup "io")).questions = []
    ∧ (processPdfWithClaude "test-2019.pdf" ⟨some ["2023"], false⟩
        (.failedSetup "io")).success = false :=
  ⟨by decide,
   (skippedReason_invariant "test-2019.pdf" ⟨some ["2023"], false⟩
      (.failedSetup "io") (by decide)).1,
   (skippedReason_invariant "test-2019.pdf" ⟨some ["2023"], false⟩
      (.failedSetup "io") (by decide)).2⟩

end Scraper
